import Mathlib

/-!
Verification of the TODO-Collector reconciliation/formatting core (`src/main.ts`)
against its natural-language specification.

Strings are embedded as `List Char` (`Str`); every definition in the
`TodoCollector` namespace is a direct translation of the corresponding
TypeScript in `src/main.ts`, keeping the source's names where Lean allows it.
Machine time (`Date.now()`) is an `Int` number of milliseconds.  JavaScript
`Map` objects and plain records used as dictionaries are modelled as
association lists with first-match lookup and insertion-order-preserving
update.  The file is organised as: all definitions first, then all theorems.
-/

set_option maxRecDepth 20000

namespace TodoCollector

/-- Strings are modelled as lists of characters. -/
abbrev Str := List Char

/-- Characters treated as whitespace by JavaScript's `trim` and `\s`
(ASCII fragment, which covers all inputs the plugin manipulates). -/
def wsChar (c : Char) : Bool :=
  c == ' ' || c == '\t' || c == '\n' || c == '\r' || c == '\x0b' || c == '\x0c'

/-- `String.prototype.toLowerCase` (character-wise lowering). -/
def toLowerStr (s : Str) : Str := s.map Char.toLower

/-- Left part of `String.prototype.trim`. -/
def trimLeft (s : Str) : Str := s.dropWhile wsChar

/-- Right part of `String.prototype.trim`. -/
def trimRight (s : Str) : Str := (s.reverse.dropWhile wsChar).reverse

/-- `String.prototype.trim`: drop leading and trailing whitespace. -/
def trimStr (s : Str) : Str := trimRight (trimLeft s)

/-- `getItemKey` (src/main.ts:1024-1026):
`` `${text} [[${source}]]`.toLowerCase().trim() `` — the lowering and the
trimming are applied to the whole concatenation. -/
def getItemKey (text source : Str) : Str :=
  trimStr (toLowerStr (text ++ " [[".toList ++ source ++ "]]".toList))

/-- Normalization applied to a checked-item entry wherever the source writes
`item.toLowerCase().trim()` (src/main.ts:891, 903, 1029, 1105). -/
def normItem (item : Str) : Str := trimStr (toLowerStr item)

/-- Modelled from the spec's words (for comparison with `getItemKey` only):
"ItemKey: derived string, `lowercase(trim(text)) + " [[" + sourceName + "]]"`"
— here the normalization is applied to the item text alone. -/
def deriveKeySpec (text source : Str) : Str :=
  toLowerStr (trimStr text) ++ " [[".toList ++ source ++ "]]".toList

/-! ### Documents, settings and the Collector -/

/-- A markdown document of the corpus (path, base name, full text). -/
structure VFile where
  path : Str
  basename : Str
  content : Str
deriving DecidableEq

/-- `TodoItem` (src/main.ts:8-11): a collected checklist item. -/
structure TodoItem where
  text : Str
  sourceBasename : Str
deriving DecidableEq

/-- The plugin settings relevant to the reconciliation/formatting core
(`TodoCollectorSettings`, src/main.ts:18-27; `pinToTop` is UI-only). -/
structure TCSettings where
  outputFilePath : Str
  excludeFolders : List Str
  showCheckedSection : Bool
  checkedSectionHeader : Str
  enableTimeGroups : Bool
  decayDays : Int
  showDecayCountdown : Bool

/-- Split a string at `'\n'` characters into its lines. -/
def splitLines : Str → List Str
  | [] => [[]]
  | c :: rest =>
    if c = '\n' then [] :: splitLines rest
    else
      match splitLines rest with
      | [] => [[c]]
      | l :: ls => (c :: l) :: ls

/-- The unchecked-item matcher `/^(\s*)- \[ \] (.+)$/` applied to one line
(src/main.ts:989): optional leading whitespace, the literal `"- [ ] "`, then a
non-empty remainder; the produced item text is the trimmed remainder
(src/main.ts:1000). -/
def matchUnchecked (line : Str) : Option Str :=
  let rest := line.dropWhile wsChar
  if ("- [ ] ".toList).isPrefixOf rest then
    let t := rest.drop 6
    if t.isEmpty then none else some (trimStr t)
  else none

/-- All unchecked items of one document, in line order
(the `while exec` loop of `collectTodos`, src/main.ts:998-1003). -/
def fileTodos (f : VFile) : List TodoItem :=
  (splitLines f.content).filterMap
    (fun l => (matchUnchecked l).map (fun t => ⟨t, f.basename⟩))

/-- `isExcluded` (src/main.ts:1011-1018).  Note the truthiness guard
`folder && ...`: an empty-string folder entry never excludes anything. -/
def isExcluded (excludeFolders : List Str) (path : Str) : Bool :=
  excludeFolders.any (fun folder =>
    !folder.isEmpty &&
      ((folder ++ "/".toList).isPrefixOf path || path == folder))

/-- Modelled from the spec's words (for comparison with `isExcluded` only):
"skips ... any document whose path is equal to, or nested under, a configured
excluded folder (prefix match on `folder + "/"`, plus exact match)" — with no
restriction to non-empty folder strings. -/
def isExcludedSpec (excludeFolders : List Str) (path : Str) : Bool :=
  excludeFolders.any (fun folder =>
    (folder ++ "/".toList).isPrefixOf path || path == folder)

/-- `collectTodos` (src/main.ts:986-1009): walk the corpus in order, skip the
aggregate output document and excluded documents, emit one item per match. -/
def collectTodos (settings : TCSettings) (corpus : List VFile) : List TodoItem :=
  corpus.foldl
    (fun todos f =>
      if f.path == settings.outputFilePath then todos
      else if isExcluded settings.excludeFolders f.path then todos
      else todos ++ fileTodos f) []

/-! ### Group/order state -/

/-- The four fixed time buckets (`TimeGroup`, src/main.ts:6). -/
inductive TimeGroup
  | today
  | tomorrow
  | week
  | backlog
deriving DecidableEq

/-- `TIME_GROUP_HEADERS` (src/main.ts:29-34). -/
def timeGroupHeader : TimeGroup → Str
  | .today => "Today".toList
  | .tomorrow => "Tomorrow".toList
  | .week => "Next 7 Days".toList
  | .backlog => "Backlog".toList

/-- `HEADER_TO_GROUP` lookup (src/main.ts:36-41), `undefined` as `none`. -/
def headerToGroup (s : Str) : Option TimeGroup :=
  if s == "today".toList then some .today
  else if s == "tomorrow".toList then some .tomorrow
  else if s == "next 7 days".toList then some .week
  else if s == "backlog".toList then some .backlog
  else none

/-- First-match lookup in an association list (JS `Map.get` / record read). -/
def lookupAssoc {β : Type} (m : List (Str × β)) (k : Str) : Option β :=
  (m.find? (fun p => p.1 == k)).map (fun p => p.2)

/-- Insertion-order-preserving update (JS `Map.set` / record write). -/
def setAssoc {β : Type} (m : List (Str × β)) (k : Str) (v : β) : List (Str × β) :=
  if m.any (fun p => p.1 == k) then
    m.map (fun p => if p.1 == k then (k, v) else p)
  else m ++ [(k, v)]

/-- Key removal (JS `Map.delete` / `delete record[k]`). -/
def delAssoc {β : Type} (m : List (Str × β)) (k : Str) : List (Str × β) :=
  m.filter (fun p => !(p.1 == k))

/-- The per-category order lists (`itemOrder`, src/main.ts:253-258). -/
structure ItemOrder where
  today : List Str
  tomorrow : List Str
  week : List Str
  backlog : List Str

/-- Read the order list of one category. -/
def ItemOrder.get (o : ItemOrder) : TimeGroup → List Str
  | .today => o.today
  | .tomorrow => o.tomorrow
  | .week => o.week
  | .backlog => o.backlog

/-- `GroupedItem` (src/main.ts:13-16). -/
structure GroupedItem where
  key : Str
  line : Str
deriving DecidableEq

/-- The completion-timestamp record (`completedTimestamps`, src/main.ts:259). -/
abbrev Timestamps := List (Str × Int)

/-- Milliseconds per day (src/main.ts:1100). -/
def dayMs : Int := 24 * 60 * 60 * 1000

/-! ### Decimal rendering (JS template-string interpolation of a number) -/

/-- The decimal digit character of `d` (`d` taken modulo nothing; callers pass
`d ≤ 9`). -/
def digitChar (d : Nat) : Char :=
  if d = 0 then '0' else if d = 1 then '1' else if d = 2 then '2'
  else if d = 3 then '3' else if d = 4 then '4' else if d = 5 then '5'
  else if d = 6 then '6' else if d = 7 then '7' else if d = 8 then '8' else '9'

/-- Decimal rendering, structurally recursive on a fuel bound (`n / 10 < n`
for `n ≥ 10`, so fuel `n + 1` always suffices). -/
def natDecCore (fuel : Nat) (n : Nat) : Str :=
  match fuel with
  | 0 => []
  | fuel + 1 =>
    if n < 10 then [digitChar n]
    else natDecCore fuel (n / 10) ++ [digitChar (n % 10)]

/-- Decimal rendering of a natural number. -/
def natDec (n : Nat) : Str := natDecCore (n + 1) n

/-- Decimal rendering of an integer. -/
def intDec (i : Int) : Str :=
  if i < 0 then '-' :: natDec i.natAbs else natDec i.toNat

/-! ### The bucket sort of grouped mode -/

/-- The comparator rank of a key: its first index in the category's order
list, `none` for "Infinity" (src/main.ts:1076-1079). -/
def rankOf (order : List Str) (k : Str) : Option Nat :=
  order.findIdx? (fun x => x == k)

/-- "≤" on ranks; `none` is the infinite rank.  Two infinite ranks compare
equal (the JS comparator yields `NaN`, which `Array.prototype.sort` treats as
`+0`). -/
def leRank : Option Nat → Option Nat → Bool
  | some a, some b => a ≤ b
  | some _, none => true
  | none, some _ => false
  | none, none => true

/-- "<" on ranks (see `leRank`). -/
def ltRank : Option Nat → Option Nat → Bool
  | some a, some b => a < b
  | some _, none => true
  | none, _ => false

/-- Insert `x` before the first element whose rank is not strictly smaller:
one step of the stable sort that models `Array.prototype.sort` (stable per the
ECMAScript specification) with the comparator `posA - posB` of
src/main.ts:1075-1081. -/
def insertRanked {α : Type} (rank : α → Option Nat) (x : α) : List α → List α
  | [] => [x]
  | y :: ys =>
    if ltRank (rank y) (rank x) then y :: insertRanked rank x ys
    else x :: y :: ys

/-- Stable sort by rank (see `insertRanked`). -/
def sortRanked {α : Type} (rank : α → Option Nat) : List α → List α
  | [] => []
  | x :: xs => insertRanked rank x (sortRanked rank xs)

/-- The in-place bucket sort of src/main.ts:1072-1083: only performed when the
category's order list is non-empty. -/
def sortBucket (order : List Str) (items : List GroupedItem) : List GroupedItem :=
  if 0 < order.length then sortRanked (fun gi => rankOf order gi.key) items
  else items

/-! ### The Formatter -/

/-- One rendered unchecked line, `` `- [ ] ${text} [[${source}]]` ``
(src/main.ts:1040, 1066). -/
def todoLine (t : TodoItem) : Str :=
  "- [ ] ".toList ++ t.text ++ " [[".toList ++ t.sourceBasename ++ "]]".toList

/-- Checked-item filtering (src/main.ts:1029-1034): drop every collected item
whose key occurs in the normalized checked-item list. -/
def activeTodosOf (todos : List TodoItem) (checkedItems : List Str) : List TodoItem :=
  todos.filter (fun todo =>
    !((checkedItems.map normItem).contains (getItemKey todo.text todo.sourceBasename)))

/-- One step of the bucket-building loop of src/main.ts:1061-1068. -/
def bucketPush (itemGroups : List (Str × TimeGroup))
    (b : TimeGroup → List GroupedItem) (todo : TodoItem) :
    TimeGroup → List GroupedItem :=
  fun g =>
    if g = (lookupAssoc itemGroups (getItemKey todo.text todo.sourceBasename)).getD .backlog
    then b g ++ [⟨getItemKey todo.text todo.sourceBasename, todoLine todo⟩]
    else b g

/-- The four buckets of grouped mode (src/main.ts:1054-1068). -/
def bucketsOf (itemGroups : List (Str × TimeGroup)) (todos : List TodoItem) :
    TimeGroup → List GroupedItem :=
  todos.foldl (bucketPush itemGroups) (fun _ => [])

/-- One step of the decay loop of src/main.ts:1104-1130, threading the pair
(rendered checked items with their `daysLeft`, completion-timestamp record).
A stored timestamp `0` is falsy in JS and hence treated as missing. -/
def decayStep (settings : TCSettings) (now : Int)
    (acc : List (Str × Int) × Timestamps) (item : Str) :
    List (Str × Int) × Timestamps :=
  if 0 < settings.decayDays then
    match lookupAssoc acc.2 (normItem item) with
    | some completedAt =>
      if completedAt = 0 then
        (acc.1 ++ [(item, settings.decayDays)], setAssoc acc.2 (normItem item) now)
      else if 0 < settings.decayDays - Int.fdiv (now - completedAt) dayMs then
        (acc.1 ++ [(item, settings.decayDays - Int.fdiv (now - completedAt) dayMs)],
         acc.2)
      else (acc.1, delAssoc acc.2 (normItem item))
    | none => (acc.1 ++ [(item, settings.decayDays)], setAssoc acc.2 (normItem item) now)
  else (acc.1 ++ [(item, -1)], acc.2)

/-- One rendered checked line of flat mode, `` `- [x] ${item}` `` without the
trailing newline (src/main.ts:1047). -/
def checkedLineFlat (item : Str) : Str := "- [x] ".toList ++ item

/-- One rendered checked line of grouped mode without the trailing newline
(src/main.ts:1135-1142), with the optional decay countdown. -/
def checkedLineG (settings : TCSettings) (p : Str × Int) : Str :=
  if settings.showDecayCountdown = true ∧ 0 < settings.decayDays ∧ 0 < p.2 then
    "- [x] ".toList ++ p.1 ++ " (".toList ++
      (if p.2 = 1 then "1 day left".toList else intDec p.2 ++ " days left".toList) ++
      ")".toList
  else "- [x] ".toList ++ p.1

/-- `Array.prototype.join('\n')`. -/
def joinNlSep : List Str → Str
  | [] => []
  | [l] => l
  | l :: ls => l ++ '\n' :: joinNlSep ls

/-- One `##`-headed section of grouped mode (src/main.ts:1087-1095): header
with optional count annotation, blank line, the item lines when non-empty,
trailing blank line. -/
def sectionStr (g : TimeGroup) (items : List GroupedItem) : Str :=
  "## ".toList ++ timeGroupHeader g ++
    (if 0 < items.length then " (".toList ++ natDec items.length ++ ")".toList
     else []) ++
    ('\n' :: '\n' :: []) ++
    (if 0 < items.length then joinNlSep (items.map (fun gi => gi.line)) ++ ['\n']
     else []) ++ ['\n']

/-- `formatOutputWithChecked` (src/main.ts:1028-1147).  Returns the rendered
aggregate text together with the completion-timestamp record as it stands
after the call (the source mutates `this.completedTimestamps` in the grouped
decay loop). -/
def formatOutputWithChecked (settings : TCSettings)
    (itemGroups : List (Str × TimeGroup)) (itemOrder : ItemOrder)
    (completedTimestamps : Timestamps) (todos : List TodoItem)
    (checkedItems : List Str) (now : Int) : Str × Timestamps :=
  let activeTodos := activeTodosOf todos checkedItems
  if !settings.enableTimeGroups then
    let body := activeTodos.foldl (fun o t => o ++ todoLine t ++ ['\n']) []
    if settings.showCheckedSection && !checkedItems.isEmpty then
      (body ++ "\n\n\n\n\n\n\n\n---\n".toList ++ settings.checkedSectionHeader ++
        ('\n' :: '\n' :: []) ++
        checkedItems.foldl (fun o item => o ++ checkedLineFlat item ++ ['\n']) [],
       completedTimestamps)
    else (body, completedTimestamps)
  else
    let buckets := bucketsOf itemGroups activeTodos
    let mainOut :=
      [TimeGroup.today, TimeGroup.tomorrow, TimeGroup.week, TimeGroup.backlog].foldl
        (fun o g => o ++ sectionStr g (sortBucket (itemOrder.get g) (buckets g))) []
    if settings.showCheckedSection && !checkedItems.isEmpty then
      let processed := checkedItems.foldl (decayStep settings now) ([], completedTimestamps)
      if !processed.1.isEmpty then
        (mainOut ++ "\n\n---\n".toList ++ settings.checkedSectionHeader ++
          ('\n' :: '\n' :: []) ++
          processed.1.foldl (fun o p => o ++ checkedLineG settings p ++ ['\n']) [],
         processed.2)
      else (mainOut, processed.2)
    else (mainOut, completedTimestamps)

/-- `formatOutput` (src/main.ts:1020-1022): format with an empty
checked-item list. -/
def formatOutput (settings : TCSettings) (itemGroups : List (Str × TimeGroup))
    (itemOrder : ItemOrder) (completedTimestamps : Timestamps)
    (todos : List TodoItem) (now : Int) : Str × Timestamps :=
  formatOutputWithChecked settings itemGroups itemOrder completedTimestamps todos [] now

/-- The content written by `collectAndWriteTodos` (src/main.ts:964-984):
collect, then format with `formatOutput`. -/
def collectAndWriteTodos (settings : TCSettings)
    (itemGroups : List (Str × TimeGroup)) (itemOrder : ItemOrder)
    (completedTimestamps : Timestamps) (corpus : List VFile) (now : Int) :
    Str × Timestamps :=
  formatOutput settings itemGroups itemOrder completedTimestamps
    (collectTodos settings corpus) now

/-! ### Line-structure helpers (used to reason about formatter output) -/

/-- Concatenate lines, each terminated by `'\n'`. -/
def joinLines : List Str → Str
  | [] => []
  | l :: ls => l ++ '\n' :: joinLines ls

/-- The string contains no newline character. -/
abbrev noNl (s : Str) : Prop := ∀ c ∈ s, c ≠ '\n'

/-- The per-section line list realizing `sectionStr` (for line-level
reasoning; `sectionStr_eq_joinLines` relates the two). -/
def sectionLines (g : TimeGroup) (items : List GroupedItem) : List Str :=
  ("## ".toList ++ timeGroupHeader g ++
    (if 0 < items.length then " (".toList ++ natDec items.length ++ ")".toList
     else [])) ::
  [] :: ((if 0 < items.length then items.map (fun gi => gi.line) else []) ++ [[]])

/-- Every line of a plain collection pass's output is blank, a `## ` header,
or an unchecked `- [ ] ` line. -/
abbrev goodLine (l : Str) : Prop :=
  l = [] ∨ ("## ".toList).isPrefixOf l = true ∨ ("- [ ] ".toList).isPrefixOf l = true

/-! ### The Reconciler: parsing the aggregate document -/

/-- Consume one optional leading dash (the `-?` of the checklist regexes). -/
def optDash (s : Str) : Str :=
  match s with
  | c :: r => if c = '-' then r else c :: r
  | [] => []

/-- The tolerant checked-line matcher `/^-?\s*-?\s*\[x\]\s*(.+)$/i` of
src/main.ts:868, applied to an already-trimmed line (as in the source):
optional dash, whitespace, optional second dash, whitespace, the literal
`[x]` with case-insensitive `x`, whitespace, then the non-empty remainder
(the capture group, which extends to the end of the line). -/
def checkedMatch (s : Str) : Option Str :=
  let s2 := (optDash s).dropWhile wsChar
  let s4 := (optDash s2).dropWhile wsChar
  if s4.take 3 = "[x]".toList ∨ s4.take 3 = "[X]".toList then
    let rest2 := (s4.drop 3).dropWhile wsChar
    if rest2.isEmpty then none else some rest2
  else none

/-- The aggregate-side unchecked matcher `/^-?\s*\[ \]\s*(.+)$/` of
src/main.ts:875, applied to an already-trimmed line. -/
def uncheckedMatchAgg (s : Str) : Option Str :=
  let s2 := (optDash s).dropWhile wsChar
  if s2.take 3 = "[ ]".toList then
    let rest2 := (s2.drop 3).dropWhile wsChar
    if rest2.isEmpty then none else some rest2
  else none

/-- `headerText.replace(/\s*\(\d+\)$/, '')` (src/main.ts:863): strip one
trailing count annotation `"(<digits>)"` together with any whitespace
before it. -/
def stripCount (s : Str) : Str :=
  match s.reverse with
  | ')' :: rest =>
    let digits := rest.takeWhile Char.isDigit
    if digits.isEmpty then s
    else
      match rest.drop digits.length with
      | '(' :: rest3 => (rest3.dropWhile wsChar).reverse
      | _ => s
  | _ => s

/-- Accumulator of the line scan of `processCheckedItems`
(src/main.ts:837-885). -/
structure ParseAcc where
  checkedItems : List Str
  currentSection : Option TimeGroup
  inFrontmatter : Bool
  frontmatterDone : Bool
  itemGroups : List (Str × TimeGroup)
  groupsChanged : Bool

/-- One iteration of the `for (const line of lines)` scan of
`processCheckedItems` (src/main.ts:845-885): skip blank lines, toggle the
frontmatter state on `---` (after frontmatter, `---` clears the category
context), track `## ` category headers in grouped mode, record checked lines,
and re-learn group assignments from unchecked lines under a category. -/
def parseLine (settings : TCSettings) (acc : ParseAcc) (line : Str) : ParseAcc :=
  let trimmed := trimStr line
  if trimmed.isEmpty then acc
  else if trimmed = "---".toList then
    if !acc.frontmatterDone then
      { acc with inFrontmatter := !acc.inFrontmatter,
                 frontmatterDone := acc.frontmatterDone || acc.inFrontmatter }
    else { acc with currentSection := none }
  else if acc.inFrontmatter then acc
  else if settings.enableTimeGroups && ("## ".toList).isPrefixOf trimmed then
    { acc with currentSection :=
        headerToGroup (stripCount (toLowerStr (trimmed.drop 3))) }
  else
    match checkedMatch trimmed with
    | some rest => { acc with checkedItems := acc.checkedItems ++ [trimStr rest] }
    | none =>
      if settings.enableTimeGroups then
        match acc.currentSection with
        | some sec =>
          match uncheckedMatchAgg trimmed with
          | some rest =>
            let key := toLowerStr (trimStr rest)
            if lookupAssoc acc.itemGroups key ≠ some sec then
              { acc with itemGroups := setAssoc acc.itemGroups key sec,
                         groupsChanged := true }
            else acc
          | none => acc
        | none => acc
      else acc

/-- All decompositions `core = pre ++ "[[" ++ suf`, listed in left-to-right
order of the `"[["` occurrence. -/
def backlinkCandidates : Str → List (Str × Str)
  | [] => []
  | c :: rest =>
    let tail := (backlinkCandidates rest).map (fun pr => (c :: pr.1, pr.2))
    match c, rest with
    | '[', '[' :: suf => ([], suf) :: tail
    | _, _ => tail

/-- `item.match(/^(.+)\s+\[\[([^\]]+)\]\]$/)` (src/main.ts:928-932), returning
(trimmed task text, source name).  The greedy `(.+)` selects the rightmost
`"[["` occurrence whose bracket content (up to the final `"]]"`) is non-empty
and free of `']'` and which is preceded by at least one whitespace character
with a non-empty prefix before it; the task text is `match[1].trim()` and the
source name is `match[2]` verbatim. -/
def parseBacklink (item : Str) : Option (Str × Str) :=
  if ("]]".toList).isSuffixOf item then
    let valid := (backlinkCandidates item.dropLast.dropLast).filter (fun pr =>
      !pr.2.isEmpty && !pr.2.contains ']' &&
        (match pr.1.reverse with
         | c :: rest => wsChar c && !rest.isEmpty
         | [] => false))
    match valid.getLast? with
    | some pr => some (trimStr pr.1.dropLast, pr.2)
    | none => none
  else none

/-- `String.prototype.replace` with a string pattern: replace the first
occurrence of `pat` (if any) by `repl`. -/
def replaceFirst (pat repl : Str) : Str → Str
  | [] => if pat.isEmpty then repl else []
  | c :: rest =>
    if pat.isPrefixOf (c :: rest) then repl ++ (c :: rest).drop pat.length
    else c :: replaceFirst pat repl rest

/-- Substring occurrence test. -/
def containsSub (pat : Str) : Str → Bool
  | [] => pat.isEmpty
  | c :: rest => pat.isPrefixOf (c :: rest) || containsSub pat rest

/-- Model of `metadataCache.getFirstLinkpathDest` (src/main.ts:934): resolve
a `[[SourceName]]` link text to the first corpus document with that base
name. -/
def findSourceFile (corpus : List VFile) (name : Str) : Option VFile :=
  corpus.find? (fun f => f.basename == name)

/-- The literal-substring rewrite of `updateSourceTask` (src/main.ts:941-945)
on one document's content: `"- [ ] <task>" ↦ "- [x] <task>"` when checking,
the reverse when unchecking. -/
def updateSourceContent (taskText : Str) (checked : Bool) (content : Str) : Str :=
  if checked then
    replaceFirst ("- [ ] ".toList ++ taskText) ("- [x] ".toList ++ taskText) content
  else
    replaceFirst ("- [x] ".toList ++ taskText) ("- [ ] ".toList ++ taskText) content

/-- `updateSourceTask` (src/main.ts:927-953) acting on the corpus: parse the
trailing backlink, resolve the source document, rewrite the literal
substring, and write only when the content changed. -/
def updateSourceTask (corpus : List VFile) (item : Str) (checked : Bool) :
    List VFile :=
  match parseBacklink item with
  | none => corpus
  | some pr =>
    match findSourceFile corpus pr.2 with
    | none => corpus
    | some f =>
      let newContent := updateSourceContent pr.1 checked f.content
      if newContent = f.content then corpus
      else corpus.map (fun g =>
        if g.path = f.path then ⟨g.path, g.basename, newContent⟩ else g)

/-- The persistent plugin state owned by the plugin object
(src/main.ts:251-259). -/
structure PluginState where
  previousCheckedItems : List Str
  itemGroups : List (Str × TimeGroup)
  itemOrder : ItemOrder
  completedTimestamps : Timestamps

/-- Result of one reconciliation pass: the corpus (source documents possibly
rewritten), the plugin state, and the freshly written aggregate text. -/
structure ProcResult where
  corpus : List VFile
  state : PluginState
  aggregate : Str

/-- `processCheckedItems` (src/main.ts:828-925): scan the previous aggregate
content line by line; every item newly checked (absent from the snapshot) is
pushed into its source document as `- [x]` and its completion timestamp
stamped (under the normalized *full* item text, backlink included) unless one
is already present; every item newly unchecked is reverse-rewritten and its
timestamp deleted; then the snapshot is replaced, the corpus re-collected and
the aggregate re-rendered with the observed checked list. -/
def processCheckedItems (settings : TCSettings) (st : PluginState)
    (corpus : List VFile) (aggregateContent : Str) (now : Int) : ProcResult :=
  let acc :=
    (splitLines aggregateContent).foldl (parseLine settings)
      ⟨[], none, false, false, st.itemGroups, false⟩
  let checkedItems := acc.checkedItems
  let p1 :=
    checkedItems.foldl
      (fun (p : List VFile × Timestamps) item =>
        if st.previousCheckedItems.contains item then p
        else
          (updateSourceTask p.1 item true,
           match lookupAssoc p.2 (normItem item) with
           | none => setAssoc p.2 (normItem item) now
           | some v => if v = 0 then setAssoc p.2 (normItem item) now else p.2))
      (corpus, st.completedTimestamps)
  let p2 :=
    st.previousCheckedItems.foldl
      (fun (p : List VFile × Timestamps) item =>
        if checkedItems.contains item then p
        else (updateSourceTask p.1 item false, delAssoc p.2 (normItem item)))
      p1
  let fmt := formatOutputWithChecked settings acc.itemGroups st.itemOrder p2.2
    (collectTodos settings p2.1) checkedItems now
  { corpus := p2.1,
    state :=
      { previousCheckedItems := checkedItems,
        itemGroups := acc.itemGroups,
        itemOrder := st.itemOrder,
        completedTimestamps := fmt.2 },
    aggregate := fmt.1 }

/-! ### The debounce timers -/

/-- The two debounced actions: reconcile the aggregate document
(`processCheckedItems`) and re-collect (`collectAndWriteTodos`). -/
inductive DebAction
  | processChecked
  | collect
deriving DecidableEq

/-- The debounce delay of each action: 500 ms for `debouncedProcessChecked`
(src/main.ts:819-826), 1000 ms for `debouncedCollect` (src/main.ts:955-962). -/
def debDelay : DebAction → Int
  | .processChecked => 500
  | .collect => 1000

/-- State of the plugin's single `debounceTimer` field (src/main.ts:249),
shared by both debounced triggers, together with the log of fired callbacks
`(action, fire time)`. -/
structure DebState where
  pending : Option (DebAction × Int)
  fired : List (DebAction × Int)
deriving DecidableEq

/-- Let time advance to `t`: a pending timer whose deadline has been reached
fires. -/
def fireIfDue (t : Int) (s : DebState) : DebState :=
  match s.pending with
  | some ad => if ad.2 ≤ t then ⟨none, s.fired ++ [ad]⟩ else s
  | none => s

/-- Handle a debounced trigger at time `e.1` for action `e.2`: any timer due
by then has already fired; then `clearTimeout(this.debounceTimer)` cancels
whatever is pending — of either kind, since the field is shared — and
`setTimeout` re-arms the single timer for the new action. -/
def schedEvent (s : DebState) (e : Int × DebAction) : DebState :=
  let fired := (fireIfDue e.1 s).fired
  ⟨some (e.2, e.1 + debDelay e.2), fired⟩

/-- Run a trigger sequence from the idle state, then let time advance to
`tEnd`. -/
def runEvents (events : List (Int × DebAction)) (tEnd : Int) : DebState :=
  fireIfDue tEnd (events.foldl schedEvent ⟨none, []⟩)

/-- Grouped-mode settings used by the concrete instances of several claims
(output `TODO.md`, no exclusions, checked section shown, decay `decay`). -/
def exSettingsG (decay : Int) : TCSettings :=
  { outputFilePath := "TODO.md".toList, excludeFolders := [],
    showCheckedSection := true, checkedSectionHeader := "Completed".toList,
    enableTimeGroups := true, decayDays := decay, showDecayCountdown := true }

/-- Flat-mode settings used by the concrete instances of several claims. -/
def exSettingsF : TCSettings :=
  { outputFilePath := "TODO.md".toList, excludeFolders := [],
    showCheckedSection := true, checkedSectionHeader := "Completed".toList,
    enableTimeGroups := false, decayDays := 0, showDecayCountdown := true }

/-! # Theorems -/

/-! ### Basic lemmas about the string primitives -/

theorem toLowerStr_append (a b : Str) :
    toLowerStr (a ++ b) = toLowerStr a ++ toLowerStr b := by
  simp [toLowerStr]

theorem toLower_of_wsChar {c : Char} (h : wsChar c = true) : c.toLower = c := by
  simp only [wsChar, Bool.or_eq_true, beq_iff_eq] at h
  rcases h with ((((h | h) | h) | h) | h) | h <;> subst h <;> decide

theorem toLowerStr_of_ws {w : Str} (h : ∀ c ∈ w, wsChar c = true) :
    toLowerStr w = w := by
  induction w with
  | nil => rfl
  | cons c cs ih =>
    simp only [toLowerStr, List.map_cons]
    rw [toLower_of_wsChar (h c (List.mem_cons_self c cs))]
    have := ih (fun d hd => h d (List.mem_cons_of_mem c hd))
    simpa [toLowerStr] using this

theorem dropWhile_ws_append {w : Str} (h : ∀ c ∈ w, wsChar c = true) (s : Str) :
    (w ++ s).dropWhile wsChar = s.dropWhile wsChar := by
  induction w with
  | nil => rfl
  | cons c cs ih =>
    simp only [List.cons_append, List.dropWhile_cons,
      h c (List.mem_cons_self c cs)]
    exact ih (fun d hd => h d (List.mem_cons_of_mem c hd))

theorem trimLeft_ws_append {w : Str} (h : ∀ c ∈ w, wsChar c = true) (s : Str) :
    trimLeft (w ++ s) = trimLeft s :=
  dropWhile_ws_append h s

/-! ### C2: item key derivation -/

/-- C2 (counterexample): the claim's key formula and its whitespace-stability
example both fail on the code.  `getItemKey "Buy milk" "Notes"` is
`"buy milk [[notes]]"` (the source name is lowercased too), not the claimed
`lowercase(trim(text)) ++ " [[Notes]]"`; and
`getItemKey " Buy milk " "Notes"` is `"buy milk  [[notes]]"` (the trailing
space of the text survives as an interior double space), so it differs from
`getItemKey "Buy milk" "Notes"` although the two texts differ only in
leading/trailing whitespace. -/
theorem C2_counterexample :
    getItemKey ("Buy milk".toList) ("Notes".toList) ≠
      deriveKeySpec ("Buy milk".toList) ("Notes".toList) ∧
    getItemKey (" Buy milk ".toList) ("Notes".toList) ≠
      getItemKey ("Buy milk".toList) ("Notes".toList) := by
  constructor <;> decide

/-- C2 (amended): the derived key is the lowercase-then-trim normalization of
the whole string `text ++ " [[" ++ sourceName ++ "]]"` (so the source name is
normalized as well).  Keys are insensitive to case changes of text and source,
and to leading whitespace on the text — but not to trailing whitespace, which
survives as interior whitespace (see the counterexample).  In particular
`getItemKey "Buy milk" "Notes" = getItemKey "buy milk" "Notes"`. -/
theorem C2_amended :
    (∀ t t' s s' : Str, toLowerStr t = toLowerStr t' → toLowerStr s = toLowerStr s' →
      getItemKey t s = getItemKey t' s') ∧
    (∀ w t s : Str, (∀ c ∈ w, wsChar c = true) →
      getItemKey (w ++ t) s = getItemKey t s) ∧
    getItemKey ("Buy milk".toList) ("Notes".toList) =
      getItemKey ("buy milk".toList) ("Notes".toList) := by
  refine ⟨?_, ?_, by decide⟩
  · intro t t' s s' ht hs
    simp only [getItemKey, toLowerStr_append, ht, hs]
  · intro w t s hw
    simp only [getItemKey, List.append_assoc, toLowerStr_append,
      toLowerStr_of_ws hw, trimStr,
      trimLeft_ws_append hw]

/-- Witness for C2 (amended): instantiates the case-insensitivity clause at
`("A", "N")` versus `("a", "N")` and the leading-whitespace clause at a
one-space prefix. -/
theorem C2_witness :
    (toLowerStr ("A".toList) = toLowerStr ("a".toList) ∧
      getItemKey ("A".toList) ("N".toList) = getItemKey ("a".toList) ("N".toList)) ∧
    ((∀ c ∈ (" ".toList), wsChar c = true) ∧
      getItemKey (" ".toList ++ "x".toList) ("N".toList) =
        getItemKey ("x".toList) ("N".toList)) :=
  ⟨⟨by decide, C2_amended.1 ("A".toList) ("a".toList) ("N".toList) ("N".toList)
      (by decide) rfl⟩,
   ⟨by decide, C2_amended.2.1 (" ".toList) ("x".toList) ("N".toList) (by decide)⟩⟩

/-! ### C8: collection exclusion -/

theorem collectTodos_foldl_init (settings : TCSettings) (corpus : List VFile)
    (init : List TodoItem) :
    corpus.foldl
      (fun todos f =>
        if f.path == settings.outputFilePath then todos
        else if isExcluded settings.excludeFolders f.path then todos
        else todos ++ fileTodos f) init =
    init ++
      (corpus.filter (fun f =>
        !(f.path == settings.outputFilePath) &&
          !isExcluded settings.excludeFolders f.path)).flatMap fileTodos := by
  induction corpus generalizing init with
  | nil => simp
  | cons f fs ih =>
    rw [List.foldl_cons]
    by_cases hb1 : (f.path == settings.outputFilePath) = true
    · rw [if_pos hb1, ih, List.filter_cons]
      simp [hb1]
    · have hb1' : (f.path == settings.outputFilePath) = false := by
        simpa using hb1
      rw [if_neg hb1]
      by_cases hb2 : isExcluded settings.excludeFolders f.path = true
      · rw [if_pos hb2, ih, List.filter_cons]
        simp [hb1', hb2]
      · have hb2' : isExcluded settings.excludeFolders f.path = false := by
          simpa using hb2
        rw [if_neg hb2, ih, List.filter_cons]
        simp [hb1', hb2']

/-- C8 (counterexample): the claim's exclusion rule, taken literally, fails
for an empty-string excluded-folder entry.  With `excludeFolders = [""]` the
claimed rule (`isExcludedSpec`) marks path `"/x.md"` as excluded (it starts
with `"" ++ "/"`), but the code's `isExcluded` does not (its `folder &&`
truthiness guard ignores empty entries), and collection over such a corpus
still yields the document's item. -/
theorem C8_counterexample :
    isExcludedSpec [[]] ("/x.md".toList) = true ∧
    isExcluded [[]] ("/x.md".toList) = false ∧
    collectTodos
      { outputFilePath := "TODO.md".toList, excludeFolders := [[]],
        showCheckedSection := true, checkedSectionHeader := "Completed".toList,
        enableTimeGroups := false, decayDays := 0, showDecayCountdown := true }
      [⟨"/x.md".toList, "x".toList, "- [ ] Z".toList⟩] =
      [⟨"Z".toList, "x".toList⟩] := by
  exact ⟨by decide, by decide, by decide⟩

/-- C8 (amended): `collectTodos` skips the aggregate output document and every
document whose path either equals a *non-empty* configured excluded folder
string or starts with that folder string followed by `"/"` (empty-string
entries never exclude anything); all other documents contribute one item per
unchecked-checklist match, in corpus order; in particular, with corpus
`{templates/a.md : "- [ ] X", b.md : "- [ ] Y"}` and excluded folder
`templates`, collection yields only `Y`. -/
theorem C8_amended :
    (∀ (folders : List Str) (path : Str),
      isExcluded folders path = true ↔
        ∃ folder ∈ folders, folder ≠ [] ∧
          ((∃ rest, path = folder ++ '/' :: rest) ∨ path = folder)) ∧
    (∀ (settings : TCSettings) (corpus : List VFile),
      collectTodos settings corpus =
        (corpus.filter (fun f =>
          !(f.path == settings.outputFilePath) &&
            !isExcluded settings.excludeFolders f.path)).flatMap fileTodos) ∧
    collectTodos
      { outputFilePath := "TODO.md".toList,
        excludeFolders := ["templates".toList],
        showCheckedSection := true, checkedSectionHeader := "Completed".toList,
        enableTimeGroups := false, decayDays := 0, showDecayCountdown := true }
      [⟨"templates/a.md".toList, "a".toList, "- [ ] X".toList⟩,
       ⟨"b.md".toList, "b".toList, "- [ ] Y".toList⟩] =
      [⟨"Y".toList, "b".toList⟩] := by
  refine ⟨?_, ?_, by decide⟩
  · intro folders path
    simp only [isExcluded, List.any_eq_true, Bool.and_eq_true, Bool.or_eq_true,
      Bool.not_eq_true', List.isEmpty_eq_false, beq_iff_eq]
    constructor
    · rintro ⟨folder, hmem, hne, hpre | heq⟩
      · rw [List.isPrefixOf_iff_prefix] at hpre
        obtain ⟨rest, hrest⟩ := hpre
        exact ⟨folder, hmem, hne, Or.inl ⟨rest, by
          simp [← hrest, List.append_assoc]⟩⟩
      · exact ⟨folder, hmem, hne, Or.inr heq⟩
    · rintro ⟨folder, hmem, hne, ⟨rest, hrest⟩ | heq⟩
      · refine ⟨folder, hmem, hne, Or.inl ?_⟩
        rw [List.isPrefixOf_iff_prefix]
        exact ⟨rest, by simp [hrest, List.append_assoc]⟩
      · exact ⟨folder, hmem, hne, Or.inr heq⟩
  · intro settings corpus
    have h := collectTodos_foldl_init settings corpus []
    simpa [collectTodos] using h

/-! ### C7: checked-item filtering -/

/-- C7 (confirmed): a collected item is excluded from the unchecked output
(the `activeTodos` filter at the head of `formatOutputWithChecked`) exactly
when its derived item key equals the lowercase-trim normalization of some
entry of the supplied checked-item list. -/
theorem C7_theorem :
    ∀ (todos : List TodoItem) (checkedItems : List Str) (t : TodoItem),
      t ∈ activeTodosOf todos checkedItems ↔
        t ∈ todos ∧
          ¬∃ c ∈ checkedItems, normItem c = getItemKey t.text t.sourceBasename := by
  intro todos checked t
  simp [activeTodosOf, List.mem_filter, List.mem_map]

/-! ### C5: idempotence of collect + format -/

theorem formatOutputWithChecked_empty_snd (settings : TCSettings)
    (itemGroups : List (Str × TimeGroup)) (itemOrder : ItemOrder)
    (ts : Timestamps) (todos : List TodoItem) (now : Int) :
    (formatOutputWithChecked settings itemGroups itemOrder ts todos [] now).2 = ts := by
  by_cases h : settings.enableTimeGroups = true <;>
    simp [formatOutputWithChecked, h]

theorem formatOutputWithChecked_empty_fst (settings : TCSettings)
    (itemGroups : List (Str × TimeGroup)) (itemOrder : ItemOrder)
    (ts ts' : Timestamps) (todos : List TodoItem) (now now' : Int) :
    (formatOutputWithChecked settings itemGroups itemOrder ts todos [] now).1 =
      (formatOutputWithChecked settings itemGroups itemOrder ts' todos [] now').1 := by
  by_cases h : settings.enableTimeGroups = true <;>
    simp [formatOutputWithChecked, h]

/-- C5 (confirmed): running Collector then Formatter twice in a row, with the
same corpus and the group/order state unchanged, produces byte-identical
aggregate text: the first `formatOutput` run leaves the completion-timestamp
record untouched (it is the only plugin state the formatter can mutate, and
only for a non-empty checked list), so the second run starts from an
identical state and returns the identical string. -/
theorem C5_theorem :
    ∀ (settings : TCSettings) (itemGroups : List (Str × TimeGroup))
      (itemOrder : ItemOrder) (ts : Timestamps) (corpus : List VFile) (now : Int),
      (formatOutput settings itemGroups itemOrder ts
          (collectTodos settings corpus) now).2 = ts ∧
      (formatOutput settings itemGroups itemOrder
          (formatOutput settings itemGroups itemOrder ts
            (collectTodos settings corpus) now).2
          (collectTodos settings corpus) now).1 =
        (formatOutput settings itemGroups itemOrder ts
          (collectTodos settings corpus) now).1 := by
  intro settings itemGroups itemOrder ts corpus now
  refine ⟨formatOutputWithChecked_empty_snd _ _ _ _ _ _, ?_⟩
  rw [formatOutput, formatOutput,
    formatOutputWithChecked_empty_snd settings itemGroups itemOrder ts
      (collectTodos settings corpus) now]

/-! ### C6: order stability within a category -/

theorem ltRank_le {a b : Option Nat} (h : ltRank a b = true) : leRank a b = true := by
  cases a <;> cases b <;> simp_all [ltRank, leRank] <;> omega

theorem ltRank_false_le {a b : Option Nat} (h : ltRank a b = false) :
    leRank b a = true := by
  cases a <;> cases b <;> simp_all [ltRank, leRank] <;> omega

theorem leRank_trans {a b c : Option Nat} (h1 : leRank a b = true)
    (h2 : leRank b c = true) : leRank a c = true := by
  cases a <;> cases b <;> cases c <;> simp_all [leRank] <;> omega

theorem ltRank_ne {a b : Option Nat} (h : ltRank a b = true) : a ≠ b := by
  cases a <;> cases b <;> simp_all [ltRank] <;> omega

theorem mem_insertRanked {α : Type} (rank : α → Option Nat) (x z : α) (l : List α) :
    z ∈ insertRanked rank x l ↔ z = x ∨ z ∈ l := by
  induction l with
  | nil => simp [insertRanked]
  | cons y ys ih =>
    by_cases h : ltRank (rank y) (rank x) = true
    · simp only [insertRanked, h, if_true, List.mem_cons, ih]
      tauto
    · have hf : ltRank (rank y) (rank x) = false := by simpa using h
      simp [insertRanked, hf]

theorem perm_insertRanked {α : Type} (rank : α → Option Nat) (x : α) (l : List α) :
    (insertRanked rank x l).Perm (x :: l) := by
  induction l with
  | nil => simp [insertRanked]
  | cons y ys ih =>
    by_cases h : ltRank (rank y) (rank x) = true
    · simp only [insertRanked, h, if_true]
      exact (ih.cons y).trans (List.Perm.swap x y ys)
    · have hf : ltRank (rank y) (rank x) = false := by simpa using h
      simp [insertRanked, hf]

theorem perm_sortRanked {α : Type} (rank : α → Option Nat) (l : List α) :
    (sortRanked rank l).Perm l := by
  induction l with
  | nil => simp [sortRanked]
  | cons x xs ih =>
    exact (perm_insertRanked rank x (sortRanked rank xs)).trans (ih.cons x)

theorem pairwise_insertRanked {α : Type} (rank : α → Option Nat) (x : α)
    {l : List α}
    (hl : l.Pairwise (fun a b => leRank (rank a) (rank b) = true)) :
    (insertRanked rank x l).Pairwise
      (fun a b => leRank (rank a) (rank b) = true) := by
  induction l with
  | nil => simp [insertRanked]
  | cons y ys ih =>
    rcases List.pairwise_cons.mp hl with ⟨hy, hys⟩
    by_cases h : ltRank (rank y) (rank x) = true
    · simp only [insertRanked, h, if_true]
      refine List.pairwise_cons.mpr ⟨?_, ih hys⟩
      intro z hz
      rcases (mem_insertRanked rank x z ys).mp hz with rfl | hz'
      · exact ltRank_le h
      · exact hy z hz'
    · have hf : ltRank (rank y) (rank x) = false := by simpa using h
      simp only [insertRanked, hf, Bool.false_eq_true, if_false]
      refine List.pairwise_cons.mpr ⟨?_, hl⟩
      intro z hz
      rcases List.mem_cons.mp hz with rfl | hz'
      · exact ltRank_false_le hf
      · exact leRank_trans (ltRank_false_le hf) (hy z hz')

theorem pairwise_sortRanked {α : Type} (rank : α → Option Nat) (l : List α) :
    (sortRanked rank l).Pairwise
      (fun a b => leRank (rank a) (rank b) = true) := by
  induction l with
  | nil => simp [sortRanked]
  | cons x xs ih => exact pairwise_insertRanked rank x ih

theorem filter_insertRanked {α : Type} (rank : α → Option Nat) (v : Option Nat)
    (x : α) (l : List α) :
    (insertRanked rank x l).filter (fun a => rank a == v) =
      if rank x == v then x :: l.filter (fun a => rank a == v)
      else l.filter (fun a => rank a == v) := by
  induction l with
  | nil =>
    cases hx : rank x == v with
    | true => simp [insertRanked, List.filter, hx]
    | false => simp [insertRanked, List.filter, hx]
  | cons y ys ih =>
    by_cases h : ltRank (rank y) (rank x) = true
    · by_cases hx : (rank x == v) = true
      · have hxv : rank x = v := by simpa using hx
        have hy : (rank y == v) = false := by
          rw [beq_eq_false_iff_ne, ← hxv]
          exact ltRank_ne h
        simp only [insertRanked, h, if_true, List.filter_cons, hy, hx,
          Bool.false_eq_true, if_false, ih]
      · have hx' : (rank x == v) = false := by simpa using hx
        simp only [insertRanked, h, if_true, List.filter_cons, hx',
          Bool.false_eq_true, if_false, ih]
    · have hf : ltRank (rank y) (rank x) = false := by simpa using h
      simp only [insertRanked, hf, Bool.false_eq_true, if_false, List.filter_cons]

theorem filter_sortRanked {α : Type} (rank : α → Option Nat) (v : Option Nat)
    (l : List α) :
    (sortRanked rank l).filter (fun a => rank a == v) =
      l.filter (fun a => rank a == v) := by
  induction l with
  | nil => rfl
  | cons x xs ih =>
    simp only [sortRanked, filter_insertRanked, List.filter_cons, ih]

/-- C6 (confirmed): in grouped mode each bucket is sorted by the rank of its
key in the category's order list (`rankOf`; keys absent from the list rank as
infinite, `none`): the rendered bucket is a permutation of the discovered
bucket, it is pairwise ordered by rank, and the sort is stable — items of
equal rank (in particular all items absent from the order list) keep their
collection-discovery relative order, stated as preservation of every
rank-fiber of the list.  In particular, for order list `[B, A]` and
discovered items `[A, B, C]` the rendered order is `[B, A, C]` (shown through
the full formatter). -/
theorem C6_theorem :
    (∀ (order : List Str) (items : List GroupedItem),
      (sortBucket order items).Perm items ∧
      (sortBucket order items).Pairwise
        (fun a b => leRank (rankOf order a.key) (rankOf order b.key) = true) ∧
      ∀ v : Option Nat,
        (sortBucket order items).filter (fun gi => rankOf order gi.key == v) =
          items.filter (fun gi => rankOf order gi.key == v)) ∧
    (formatOutputWithChecked (exSettingsG 0) []
        ⟨[], [], [], ["b [[n]]".toList, "a [[n]]".toList]⟩ []
        [⟨"A".toList, "n".toList⟩, ⟨"B".toList, "n".toList⟩,
         ⟨"C".toList, "n".toList⟩] [] 0).1 =
      ("## Today\n\n\n## Tomorrow\n\n\n## Next 7 Days\n\n\n## Backlog (3)\n\n- [ ] B [[n]]\n- [ ] A [[n]]\n- [ ] C [[n]]\n\n".toList) := by
  refine ⟨?_, by decide⟩
  intro order items
  unfold sortBucket
  by_cases h : 0 < order.length
  · rw [if_pos h]
    exact ⟨perm_sortRanked _ _, pairwise_sortRanked _ _,
      fun v => filter_sortRanked _ _ _⟩
  · rw [if_neg h]
    have horder : order = [] := by
      cases order with
      | nil => rfl
      | cons a as => simp at h
    subst horder
    refine ⟨List.Perm.refl _, ?_, fun v => rfl⟩
    induction items with
    | nil => exact List.Pairwise.nil
    | cons x xs ih =>
      exact List.Pairwise.cons (fun z hz => by simp [rankOf, leRank]) ih

/-! ### C3: decay expiry -/

/-- C3 (counterexample): grouped mode, `decayDays = 2`, completion timestamp
`dayMs`, now `3 * dayMs` — the elapsed whole days are exactly 2, which does
*not* exceed `decayDays`, so the claimed rule would render the item; the code
drops it from the completed section (the output has no completed section at
all) and purges its timestamp entry. -/
theorem C3_counterexample :
    (formatOutputWithChecked (exSettingsG 2) [] ⟨[], [], [], []⟩
        [("done [[n]]".toList, dayMs)] [] ["Done [[n]]".toList] (3 * dayMs)).2 =
      [] ∧
    (formatOutputWithChecked (exSettingsG 2) [] ⟨[], [], [], []⟩
        [("done [[n]]".toList, dayMs)] [] ["Done [[n]]".toList] (3 * dayMs)).1 =
      ("## Today\n\n\n## Tomorrow\n\n\n## Next 7 Days\n\n\n## Backlog\n\n\n".toList) := by
  exact ⟨by decide, by decide⟩

/-- C3 (amended): in grouped mode with a configured decay window
(`0 < decayDays`), a checked item whose recorded non-zero completion
timestamp is `t` is dropped from the completed section and its timestamp
entry deleted exactly when the elapsed whole days `⌊(now - t) / dayMs⌋`
*reach or* exceed `decayDays` (the code drops when
`daysLeft = decayDays - elapsed ≤ 0`); otherwise it is rendered with that
`daysLeft`.  (A stored timestamp `0` is falsy in JS and treated as missing,
hence the non-zero proviso.)  In particular a checked item with
`decayDays = 2` and a timestamp 3 days old is omitted from the output and its
timestamp entry removed. -/
theorem C3_amended :
    (∀ (settings : TCSettings) (now : Int) (active : List (Str × Int))
        (ts : Timestamps) (item : Str) (t : Int),
      0 < settings.decayDays →
      lookupAssoc ts (normItem item) = some t →
      t ≠ 0 →
      (settings.decayDays ≤ Int.fdiv (now - t) dayMs →
        decayStep settings now (active, ts) item =
          (active, delAssoc ts (normItem item))) ∧
      (Int.fdiv (now - t) dayMs < settings.decayDays →
        decayStep settings now (active, ts) item =
          (active ++ [(item, settings.decayDays - Int.fdiv (now - t) dayMs)], ts))) ∧
    (formatOutputWithChecked (exSettingsG 2) [] ⟨[], [], [], []⟩
        [("done [[n]]".toList, dayMs)] [] ["Done [[n]]".toList] (4 * dayMs)).2 =
      [] ∧
    (formatOutputWithChecked (exSettingsG 2) [] ⟨[], [], [], []⟩
        [("done [[n]]".toList, dayMs)] [] ["Done [[n]]".toList] (4 * dayMs)).1 =
      ("## Today\n\n\n## Tomorrow\n\n\n## Next 7 Days\n\n\n## Backlog\n\n\n".toList) := by
  refine ⟨?_, by decide, by decide⟩
  intro settings now active ts item t hdecay hlook ht0
  constructor
  · intro hexp
    have hleft : ¬ 0 < settings.decayDays - Int.fdiv (now - t) dayMs := by omega
    simp only [decayStep, if_pos hdecay, hlook, if_neg ht0, if_neg hleft]
  · intro hexp
    have hleft : 0 < settings.decayDays - Int.fdiv (now - t) dayMs := by omega
    simp only [decayStep, if_pos hdecay, hlook, if_neg ht0, if_pos hleft]

/-- Witness for C3 (amended): `decayDays = 2`, timestamp `dayMs`, now
`4 * dayMs` (elapsed 3 whole days): the hypotheses hold and the item is
dropped with its timestamp entry deleted. -/
theorem C3_witness :
    ((0 : Int) < (exSettingsG 2).decayDays ∧
      lookupAssoc [("done [[n]]".toList, dayMs)] (normItem ("Done [[n]]".toList)) =
        some dayMs ∧
      dayMs ≠ 0 ∧
      (exSettingsG 2).decayDays ≤ Int.fdiv (4 * dayMs - dayMs) dayMs) ∧
    decayStep (exSettingsG 2) (4 * dayMs) ([], [("done [[n]]".toList, dayMs)])
      ("Done [[n]]".toList) =
      ([], delAssoc [("done [[n]]".toList, dayMs)] (normItem ("Done [[n]]".toList))) :=
  ⟨⟨by decide, by decide, by decide, by decide⟩,
    (C3_amended.1 (exSettingsG 2) (4 * dayMs) [] [("done [[n]]".toList, dayMs)]
        ("Done [[n]]".toList) dayMs (by decide) (by decide) (by decide)).1
      (by decide)⟩

/-! ### C1: the two-way sync scenario -/

/-- C1 (counterexample): the two-way sync scenario — aggregate content
`"- [x] Fix bug [[Notes]]"`, empty previous snapshot, source document
`Notes` containing `"- [ ] Fix bug"`.  After the reconciliation pass the
source line is indeed rewritten to `"- [x] Fix bug"`, but the completion
timestamp is *not* recorded under the claimed key `"fix bug"` (item text
only): the timestamp map holds no entry for `"fix bug"` — the entry sits
under the source-qualified key `"fix bug [[notes]]"`, because the parsed
checked-item text still carries its `[[Notes]]` backlink when it is
normalized at src/main.ts:891. -/
theorem C1_counterexample :
    (processCheckedItems exSettingsF ⟨[], [], ⟨[], [], [], []⟩, []⟩
        [⟨"Notes.md".toList, "Notes".toList, "- [ ] Fix bug".toList⟩]
        ("- [x] Fix bug [[Notes]]".toList) 1000).corpus =
      [⟨"Notes.md".toList, "Notes".toList, "- [x] Fix bug".toList⟩] ∧
    lookupAssoc
      (processCheckedItems exSettingsF ⟨[], [], ⟨[], [], [], []⟩, []⟩
          [⟨"Notes.md".toList, "Notes".toList, "- [ ] Fix bug".toList⟩]
          ("- [x] Fix bug [[Notes]]".toList) 1000).state.completedTimestamps
      ("fix bug".toList) = none := by
  exact ⟨by decide, by decide⟩

/-- C1 (amended): in the two-way sync scenario the source line `- [ ] Fix bug`
of `Notes` becomes `- [x] Fix bug`, and the completion timestamp is recorded
under the key `"fix bug [[notes]]"` — the lowercased-and-trimmed *full*
checked-item text, which is source-qualified because it includes the
`[[Notes]]` backlink (not under the item text alone).  The new snapshot
stores the observed checked item and the rewritten aggregate carries the
checked line in its completed section. -/
theorem C1_amended :
    (processCheckedItems exSettingsF ⟨[], [], ⟨[], [], [], []⟩, []⟩
        [⟨"Notes.md".toList, "Notes".toList, "- [ ] Fix bug".toList⟩]
        ("- [x] Fix bug [[Notes]]".toList) 1000).corpus =
      [⟨"Notes.md".toList, "Notes".toList, "- [x] Fix bug".toList⟩] ∧
    lookupAssoc
      (processCheckedItems exSettingsF ⟨[], [], ⟨[], [], [], []⟩, []⟩
          [⟨"Notes.md".toList, "Notes".toList, "- [ ] Fix bug".toList⟩]
          ("- [x] Fix bug [[Notes]]".toList) 1000).state.completedTimestamps
      ("fix bug [[notes]]".toList) = some 1000 ∧
    (processCheckedItems exSettingsF ⟨[], [], ⟨[], [], [], []⟩, []⟩
        [⟨"Notes.md".toList, "Notes".toList, "- [ ] Fix bug".toList⟩]
        ("- [x] Fix bug [[Notes]]".toList) 1000).state.previousCheckedItems =
      ["Fix bug [[Notes]]".toList] ∧
    (processCheckedItems exSettingsF ⟨[], [], ⟨[], [], [], []⟩, []⟩
        [⟨"Notes.md".toList, "Notes".toList, "- [ ] Fix bug".toList⟩]
        ("- [x] Fix bug [[Notes]]".toList) 1000).aggregate =
      ("\n\n\n\n\n\n\n\n---\nCompleted\n\n- [x] Fix bug [[Notes]]\n".toList) := by
  exact ⟨by decide, by decide, by decide, by decide⟩

/-! ### C9: silent no-op on sync miss -/

theorem replaceFirst_of_not_contains {pat repl s : Str}
    (h : containsSub pat s = false) : replaceFirst pat repl s = s := by
  induction s with
  | nil =>
    simp only [containsSub] at h
    simp [replaceFirst, h]
  | cons c rest ih =>
    simp only [containsSub, Bool.or_eq_false_iff] at h
    simp [replaceFirst, h.1, ih h.2]

/-- C9 (confirmed): `updateSourceTask` is a silent no-op — the corpus is
returned entirely unchanged and no error arises (the function is total) —
whenever (a) the item text carries no trailing `[[Source]]` backlink token
(`parseBacklink` fails), or (b) the backlink parses and resolves to a source
document whose content does not contain the literal substring
`"- [ ] <task>"` (when checking; `"- [x] <task>"` when unchecking). -/
theorem C9_theorem :
    ∀ (corpus : List VFile) (item : Str) (checked : Bool),
      (parseBacklink item = none → updateSourceTask corpus item checked = corpus) ∧
      (∀ (task src : Str) (f : VFile),
        parseBacklink item = some (task, src) →
        findSourceFile corpus src = some f →
        containsSub
          ((if checked then "- [ ] ".toList else "- [x] ".toList) ++ task)
          f.content = false →
        updateSourceTask corpus item checked = corpus) := by
  intro corpus item checked
  constructor
  · intro h
    simp [updateSourceTask, h]
  · intro task src f hparse hfind hmiss
    have hrw : updateSourceContent task checked f.content = f.content := by
      cases checked with
      | true =>
        show replaceFirst ("- [ ] ".toList ++ task) ("- [x] ".toList ++ task)
          f.content = f.content
        exact replaceFirst_of_not_contains (by simpa using hmiss)
      | false =>
        show replaceFirst ("- [x] ".toList ++ task) ("- [ ] ".toList ++ task)
          f.content = f.content
        exact replaceFirst_of_not_contains (by simpa using hmiss)
    simp [updateSourceTask, hparse, hfind, hrw]

/-- Witness for C9: (a) `"no backlink here"` has no backlink token, and the
corpus survives unchanged; (b) `"Task [[Notes]]"` parses, resolves to
`Notes.md`, whose content `"nothing here"` lacks the literal
`"- [ ] Task"`, and the corpus again survives unchanged. -/
theorem C9_witness :
    (parseBacklink ("no backlink here".toList) = none ∧
      updateSourceTask [⟨"Notes.md".toList, "Notes".toList, "nothing here".toList⟩]
        ("no backlink here".toList) true =
        [⟨"Notes.md".toList, "Notes".toList, "nothing here".toList⟩]) ∧
    (parseBacklink ("Task [[Notes]]".toList) =
        some ("Task".toList, "Notes".toList) ∧
      findSourceFile [⟨"Notes.md".toList, "Notes".toList, "nothing here".toList⟩]
        ("Notes".toList) =
        some ⟨"Notes.md".toList, "Notes".toList, "nothing here".toList⟩ ∧
      containsSub ("- [ ] Task".toList) ("nothing here".toList) = false ∧
      updateSourceTask [⟨"Notes.md".toList, "Notes".toList, "nothing here".toList⟩]
        ("Task [[Notes]]".toList) true =
        [⟨"Notes.md".toList, "Notes".toList, "nothing here".toList⟩]) :=
  ⟨⟨by decide,
    ( C9_theorem [⟨"Notes.md".toList, "Notes".toList, "nothing here".toList⟩]
        ("no backlink here".toList) true).1 (by decide)⟩,
   ⟨by decide, by decide, by decide,
    ( C9_theorem [⟨"Notes.md".toList, "Notes".toList, "nothing here".toList⟩]
        ("Task [[Notes]]".toList) true).2 ("Task".toList) ("Notes".toList)
      ⟨"Notes.md".toList, "Notes".toList, "nothing here".toList⟩
      (by decide) (by decide) (by decide)⟩⟩

/-! ### C4: the debounced triggers -/

/-- C4 (counterexample): the two debounced triggers share the single
`debounceTimer` field, so they are *not* independent.  An aggregate edit at
t = 0 schedules the reconcile for t = 500; an edit to another document at
t = 100 cancels it (`clearTimeout` on the shared field) and schedules the
re-collection for t = 1100.  Running to any later time, only the
re-collection ever fires: the pending reconcile was superseded by the other
trigger, contradicting the claimed independence. -/
theorem C4_counterexample :
    runEvents [((0 : Int), DebAction.processChecked), ((100 : Int), DebAction.collect)]
        2000 =
      ⟨none, [(DebAction.collect, 1100)]⟩ ∧
    (DebAction.processChecked, (500 : Int)) ∉
      (runEvents [((0 : Int), DebAction.processChecked),
        ((100 : Int), DebAction.collect)] 2000).fired := by
  exact ⟨by decide, by decide⟩

/-- C4 (amended): the ≈500 ms reconcile debounce and the ≈1 s re-collection
debounce share one timer field: scheduling either trigger within the pending
trigger's delay window cancels it — whichever kind it was — and re-arms the
single timer for the new action, so nothing fires at the superseded deadline;
a pending action fires (once) exactly when its full delay elapses with no
further trigger of either kind. -/
theorem C4_amended :
    ∀ (s : DebState) (t1 : Int) (a1 : DebAction) (t2 : Int) (a2 : DebAction),
      t2 < t1 + debDelay a1 →
      ((schedEvent (schedEvent s (t1, a1)) (t2, a2)).fired =
          (schedEvent s (t1, a1)).fired ∧
        (schedEvent (schedEvent s (t1, a1)) (t2, a2)).pending =
          some (a2, t2 + debDelay a2)) ∧
      ∀ t3 : Int, t1 + debDelay a1 ≤ t3 →
        fireIfDue t3 (schedEvent s (t1, a1)) =
          ⟨none, (schedEvent s (t1, a1)).fired ++ [(a1, t1 + debDelay a1)]⟩ := by
  intro s t1 a1 t2 a2 h12
  constructor
  · constructor
    · simp only [schedEvent, fireIfDue]
      rw [if_neg (by omega : ¬ ((a1, t1 + debDelay a1) : DebAction × Int).2 ≤ t2)]
    · rfl
  · intro t3 h3
    simp only [schedEvent, fireIfDue]
    rw [if_pos (by simpa using h3)]

/-- Witness for C4 (amended): the concrete schedule of the counterexample —
reconcile at t = 0 (delay 500), re-collection at t = 100 < 500. -/
theorem C4_witness :
    ((100 : Int) < 0 + debDelay DebAction.processChecked) ∧
    (schedEvent (schedEvent ⟨none, []⟩ ((0 : Int), DebAction.processChecked))
        ((100 : Int), DebAction.collect)).fired =
      (schedEvent ⟨none, []⟩ ((0 : Int), DebAction.processChecked)).fired ∧
    (schedEvent (schedEvent ⟨none, []⟩ ((0 : Int), DebAction.processChecked))
        ((100 : Int), DebAction.collect)).pending =
      some (DebAction.collect, 100 + debDelay DebAction.collect) :=
  ⟨by decide,
    ((C4_amended ⟨none, []⟩ 0 DebAction.processChecked 100 DebAction.collect
        (by decide)).1.1),
    ((C4_amended ⟨none, []⟩ 0 DebAction.processChecked 100 DebAction.collect
        (by decide)).1.2)⟩

/-! ### C10: plain collection passes render no checked content -/

theorem splitLines_append_nl {a : Str} (ha : noNl a) (b : Str) :
    splitLines (a ++ '\n' :: b) = a :: splitLines b := by
  induction a with
  | nil => simp [splitLines]
  | cons c cs ih =>
    have hc : c ≠ '\n' := ha c (List.mem_cons_self c cs)
    have ih' := ih (fun d hd => ha d (List.mem_cons_of_mem c hd))
    simp [splitLines, hc, ih']

theorem joinLines_append (a b : List Str) :
    joinLines (a ++ b) = joinLines a ++ joinLines b := by
  induction a with
  | nil => rfl
  | cons l ls ih => simp [joinLines, ih]

theorem splitLines_joinLines {ls : List Str} (h : ∀ l ∈ ls, noNl l) :
    splitLines (joinLines ls) = ls ++ [[]] := by
  induction ls with
  | nil => rfl
  | cons l ls ih =>
    rw [joinLines, splitLines_append_nl (h l (List.mem_cons_self l ls)),
      ih (fun x hx => h x (List.mem_cons_of_mem l hx))]
    rfl

theorem joinNlSep_newline {ls : List Str} (h : ls ≠ []) :
    joinNlSep ls ++ ['\n'] = joinLines ls := by
  induction ls with
  | nil => simp at h
  | cons l ls ih =>
    cases ls with
    | nil => simp [joinNlSep, joinLines]
    | cons l2 ls2 =>
      have : joinNlSep (l :: l2 :: ls2) = l ++ '\n' :: joinNlSep (l2 :: ls2) := rfl
      rw [this, joinLines, ← ih (by simp)]
      simp

theorem foldl_append_lines {α : Type} (line : α → Str) (todos : List α)
    (init : Str) :
    todos.foldl (fun o t => o ++ line t ++ ['\n']) init =
      init ++ joinLines (todos.map line) := by
  induction todos generalizing init with
  | nil => simp [joinLines]
  | cons t ts ih =>
    rw [List.foldl_cons, ih, List.map_cons, joinLines]
    simp

theorem sectionStr_eq_joinLines (g : TimeGroup) (items : List GroupedItem) :
    sectionStr g items = joinLines (sectionLines g items) := by
  by_cases h : 0 < items.length
  · have hne : items.map (fun gi => gi.line) ≠ [] := by
      cases items with
      | nil => simp at h
      | cons a as => simp
    rw [sectionStr, sectionLines, if_pos h, if_pos h, if_pos h,
      joinLines, joinLines, joinLines_append, ← joinNlSep_newline hne]
    simp [joinLines]
  · rw [sectionStr, sectionLines, if_neg h, if_neg h, if_neg h]
    simp [joinLines]

theorem digitChar_ne_nl (d : Nat) : digitChar d ≠ '\n' := by
  unfold digitChar
  split_ifs <;> decide

theorem natDecCore_noNl (fuel : Nat) : ∀ n : Nat, noNl (natDecCore fuel n) := by
  induction fuel with
  | zero => intro n c hc; simp [natDecCore] at hc
  | succ fuel ih =>
    intro n c hc
    rw [natDecCore] at hc
    by_cases h : n < 10
    · rw [if_pos h] at hc
      simp only [List.mem_singleton] at hc
      subst hc
      exact digitChar_ne_nl n
    · rw [if_neg h] at hc
      rcases List.mem_append.mp hc with h1 | h2
      · exact ih (n / 10) c h1
      · simp only [List.mem_singleton] at h2
        subst h2
        exact digitChar_ne_nl _

theorem natDec_noNl (n : Nat) : noNl (natDec n) := natDecCore_noNl (n + 1) n

theorem noNl_append {a b : Str} (ha : noNl a) (hb : noNl b) : noNl (a ++ b) := by
  intro c hc
  rcases List.mem_append.mp hc with h | h
  · exact ha c h
  · exact hb c h

theorem noNl_timeGroupHeader (g : TimeGroup) : noNl (timeGroupHeader g) := by
  cases g <;> decide

theorem noNl_todoLine {t : TodoItem} (ht : noNl t.text)
    (hs : noNl t.sourceBasename) : noNl (todoLine t) := by
  intro c hc
  rw [todoLine] at hc
  simp only [List.mem_append] at hc
  rcases hc with (((h | h) | h) | h) | h
  · exact (by decide : noNl ("- [ ] ".toList)) c h
  · exact ht c h
  · exact (by decide : noNl (" [[".toList)) c h
  · exact hs c h
  · exact (by decide : noNl ("]]".toList)) c h

theorem dropWhile_append_not {p : Char → Bool} {c : Char} (hc : p c = false)
    (xs ys : Str) : ∃ zs, (xs ++ c :: ys).dropWhile p = zs ++ c :: ys := by
  induction xs with
  | nil => exact ⟨[], by simp [List.dropWhile_cons, hc]⟩
  | cons x xs ih =>
    by_cases hx : p x = true
    · obtain ⟨zs, hzs⟩ := ih
      exact ⟨zs, by simp [List.dropWhile_cons, hx, hzs]⟩
    · exact ⟨x :: xs, by simp [List.dropWhile_cons, hx]⟩

theorem trimStr_header (r : Str) :
    ∃ ds, trimStr ("## ".toList ++ r) = '#' :: ds := by
  have h1 : trimLeft ("## ".toList ++ r) = "## ".toList ++ r := by
    simp [trimLeft, List.dropWhile_cons, wsChar]
  have h2 : ("## ".toList ++ r).reverse = (r.reverse ++ [' ', '#']) ++ '#' :: [] := by
    simp
  obtain ⟨zs, hzs⟩ := dropWhile_append_not (p := wsChar) (c := '#') (by decide)
    (r.reverse ++ [' ', '#']) []
  refine ⟨(zs ++ ['#']).reverse.tail, ?_⟩
  rw [trimStr, h1, trimRight, h2, hzs]
  simp

theorem trimStr_unchecked (r : Str) :
    ∃ ds, trimStr ("- [ ] ".toList ++ r) = "- [ ]".toList ++ ds := by
  have h1 : trimLeft ("- [ ] ".toList ++ r) = "- [ ] ".toList ++ r := by
    simp [trimLeft, List.dropWhile_cons, wsChar]
  have h2 : ("- [ ] ".toList ++ r).reverse =
      (r.reverse ++ [' ']) ++ ']' :: [' ', '[', ' ', '-'] := by
    simp
  obtain ⟨zs, hzs⟩ := dropWhile_append_not (p := wsChar) (c := ']') (by decide)
    (r.reverse ++ [' ']) [' ', '[', ' ', '-']
  refine ⟨zs.reverse, ?_⟩
  rw [trimStr, h1, trimRight, h2, hzs]
  simp

theorem checkedMatch_head_other {c : Char} (hws : wsChar c = false)
    (hd : c ≠ '-') (hb : c ≠ '[') (ds : Str) : checkedMatch (c :: ds) = none := by
  have hod : optDash (c :: ds) = c :: ds := by
    simp [optDash, hd]
  have hdw : (c :: ds).dropWhile wsChar = c :: ds := by
    simp [List.dropWhile_cons, hws]
  have hx : "[x]".toList = '[' :: 'x' :: ']' :: [] := rfl
  have hX : "[X]".toList = '[' :: 'X' :: ']' :: [] := rfl
  have hcond : ¬ ((c :: ds).take 3 = "[x]".toList ∨
      (c :: ds).take 3 = "[X]".toList) := by
    rintro (h | h)
    · rw [List.take_succ_cons, hx] at h
      injection h with h1 _
      exact hb h1
    · rw [List.take_succ_cons, hX] at h
      injection h with h1 _
      exact hb h1
  rw [checkedMatch]
  simp only [hod, hdw, hcond, if_false]

theorem checkedMatch_unchecked_prefix (ds : Str) :
    checkedMatch ("- [ ]".toList ++ ds) = none := by
  have h0 : "- [ ]".toList ++ ds = '-' :: ' ' :: '[' :: ' ' :: ']' :: ds := rfl
  have h1 : optDash ('-' :: ' ' :: '[' :: ' ' :: ']' :: ds) =
      ' ' :: '[' :: ' ' :: ']' :: ds := by
    simp [optDash]
  have h2 : (' ' :: '[' :: ' ' :: ']' :: ds).dropWhile wsChar =
      '[' :: ' ' :: ']' :: ds := by
    simp [List.dropWhile_cons, wsChar]
  have h3 : optDash ('[' :: ' ' :: ']' :: ds) = '[' :: ' ' :: ']' :: ds := by
    simp [optDash]
  have h4 : ('[' :: ' ' :: ']' :: ds).dropWhile wsChar =
      '[' :: ' ' :: ']' :: ds := by
    simp [List.dropWhile_cons, wsChar]
  have hcond : ¬ (('[' :: ' ' :: ']' :: ds).take 3 = "[x]".toList ∨
      ('[' :: ' ' :: ']' :: ds).take 3 = "[X]".toList) := by
    rintro (h | h) <;> simp [List.take_succ_cons] at h
  rw [h0, checkedMatch]
  simp only [h1, h2, h3, h4, hcond, if_false]

theorem checkedMatch_trim_of_goodLine {l : Str} (h : goodLine l) :
    checkedMatch (trimStr l) = none := by
  rcases h with rfl | h | h
  · decide
  · rw [List.isPrefixOf_iff_prefix] at h
    obtain ⟨r, hr⟩ := h
    obtain ⟨ds, hds⟩ := trimStr_header r
    rw [← hr, hds]
    exact checkedMatch_head_other (by decide) (by decide) (by decide) ds
  · rw [List.isPrefixOf_iff_prefix] at h
    obtain ⟨r, hr⟩ := h
    obtain ⟨ds, hds⟩ := trimStr_unchecked r
    rw [← hr, hds]
    exact checkedMatch_unchecked_prefix ds

theorem mem_sortBucket {order : List Str} {items : List GroupedItem}
    {gi : GroupedItem} (h : gi ∈ sortBucket order items) : gi ∈ items := by
  unfold sortBucket at h
  by_cases hord : 0 < order.length
  · rw [if_pos hord] at h
    exact ((perm_sortRanked _ items).mem_iff).mp h
  · rwa [if_neg hord] at h

theorem mem_bucketsOf_aux (itemGroups : List (Str × TimeGroup))
    (todos : List TodoItem) (g : TimeGroup) (gi : GroupedItem) :
    ∀ init : TimeGroup → List GroupedItem,
      gi ∈ todos.foldl (bucketPush itemGroups) init g →
      gi ∈ init g ∨
        ∃ t ∈ todos, gi = ⟨getItemKey t.text t.sourceBasename, todoLine t⟩ := by
  induction todos with
  | nil => exact fun init h => Or.inl h
  | cons t ts ih =>
    intro init h
    rw [List.foldl_cons] at h
    rcases ih (bucketPush itemGroups init t) h with hin | ⟨t', ht', rfl⟩
    · unfold bucketPush at hin
      by_cases hg :
        g = (lookupAssoc itemGroups (getItemKey t.text t.sourceBasename)).getD
          TimeGroup.backlog
      · rw [if_pos hg] at hin
        rcases List.mem_append.mp hin with h1 | h2
        · exact Or.inl h1
        · simp only [List.mem_singleton] at h2
          exact Or.inr ⟨t, List.mem_cons_self t ts, h2⟩
      · rw [if_neg hg] at hin
        exact Or.inl hin
    · exact Or.inr ⟨t', List.mem_cons_of_mem t ht', rfl⟩

theorem mem_bucketsOf {itemGroups : List (Str × TimeGroup)}
    {todos : List TodoItem} {g : TimeGroup} {gi : GroupedItem}
    (h : gi ∈ bucketsOf itemGroups todos g) :
    ∃ t ∈ todos, gi = ⟨getItemKey t.text t.sourceBasename, todoLine t⟩ := by
  rcases mem_bucketsOf_aux itemGroups todos g gi (fun _ => []) h with hin | hex
  · simp at hin
  · exact hex

theorem sectionLines_good (g : TimeGroup) (items : List GroupedItem)
    (hitems : ∀ gi ∈ items, ∃ t : TodoItem,
      gi.line = todoLine t ∧ noNl t.text ∧ noNl t.sourceBasename) :
    ∀ l ∈ sectionLines g items, goodLine l ∧ noNl l := by
  intro l hl
  rw [sectionLines] at hl
  rcases List.mem_cons.mp hl with rfl | hl
  · constructor
    · refine Or.inr (Or.inl ?_)
      rw [List.isPrefixOf_iff_prefix]
      refine ⟨timeGroupHeader g ++
        (if 0 < items.length then " (".toList ++ natDec items.length ++ ")".toList
         else []), ?_⟩
      simp [List.append_assoc]
    · refine noNl_append (noNl_append (by decide) (noNl_timeGroupHeader g)) ?_
      by_cases h : 0 < items.length
      · rw [if_pos h]
        exact noNl_append (noNl_append (by decide) (natDec_noNl _)) (by decide)
      · rw [if_neg h]
        intro c hc
        simp at hc
  · rcases List.mem_cons.mp hl with rfl | hl
    · exact ⟨Or.inl rfl, by intro c hc; simp at hc⟩
    · rcases List.mem_append.mp hl with hl | hl
      · by_cases h : 0 < items.length
        · rw [if_pos h] at hl
          obtain ⟨gi, hgi, rfl⟩ := List.mem_map.mp hl
          obtain ⟨t, hline, htn, hsn⟩ := hitems gi hgi
          rw [hline]
          refine ⟨Or.inr (Or.inr ?_), noNl_todoLine htn hsn⟩
          rw [List.isPrefixOf_iff_prefix]
          refine ⟨t.text ++ " [[".toList ++ t.sourceBasename ++ "]]".toList, ?_⟩
          rw [todoLine]
          simp [List.append_assoc]
        · rw [if_neg h] at hl
          simp at hl
      · simp only [List.mem_singleton] at hl
        subst hl
        exact ⟨Or.inl rfl, by intro c hc; simp at hc⟩

theorem formatOutput_flat_lines (settings : TCSettings)
    (itemGroups : List (Str × TimeGroup)) (itemOrder : ItemOrder)
    (ts : Timestamps) (todos : List TodoItem) (now : Int)
    (hflat : settings.enableTimeGroups = false) :
    (formatOutput settings itemGroups itemOrder ts todos now).1 =
      joinLines ((activeTodosOf todos []).map todoLine) := by
  simp only [formatOutput, formatOutputWithChecked, hflat, Bool.not_false,
    if_true, List.isEmpty_nil, Bool.not_true, Bool.and_false,
    Bool.false_eq_true, if_false]
  rw [foldl_append_lines]
  simp

theorem formatOutput_grouped_lines (settings : TCSettings)
    (itemGroups : List (Str × TimeGroup)) (itemOrder : ItemOrder)
    (ts : Timestamps) (todos : List TodoItem) (now : Int)
    (hg : settings.enableTimeGroups = true) :
    (formatOutput settings itemGroups itemOrder ts todos now).1 =
      joinLines
        (sectionLines TimeGroup.today
            (sortBucket (itemOrder.get TimeGroup.today)
              (bucketsOf itemGroups (activeTodosOf todos []) TimeGroup.today)) ++
          (sectionLines TimeGroup.tomorrow
            (sortBucket (itemOrder.get TimeGroup.tomorrow)
              (bucketsOf itemGroups (activeTodosOf todos []) TimeGroup.tomorrow)) ++
          (sectionLines TimeGroup.week
            (sortBucket (itemOrder.get TimeGroup.week)
              (bucketsOf itemGroups (activeTodosOf todos []) TimeGroup.week)) ++
          sectionLines TimeGroup.backlog
            (sortBucket (itemOrder.get TimeGroup.backlog)
              (bucketsOf itemGroups (activeTodosOf todos []) TimeGroup.backlog))))) := by
  simp only [formatOutput, formatOutputWithChecked, hg, Bool.not_true,
    Bool.false_eq_true, if_false, List.isEmpty_nil, Bool.and_false,
    List.foldl_cons, List.foldl_nil, List.nil_append]
  rw [sectionStr_eq_joinLines, sectionStr_eq_joinLines, sectionStr_eq_joinLines,
    sectionStr_eq_joinLines, ← joinLines_append, ← joinLines_append,
    ← joinLines_append]
  simp [List.append_assoc]

/-- C10 (confirmed): every plain collection pass formats with the empty
checked-item list — `formatOutput` is literally `formatOutputWithChecked`
with `[]` — and the text it writes is independent of the completion-timestamp
record and of the clock, leaves that record unchanged (and the
previous-checked-items snapshot is not even an input of the formatter), and
consists solely of blank lines, `## ` headers and `- [ ] ` lines: no line of
it matches the aggregate parser's checked-item pattern, and there is no
completed section (no `---` delimiter line at all). -/
theorem C10_theorem :
    ∀ (settings : TCSettings) (itemGroups : List (Str × TimeGroup))
      (itemOrder : ItemOrder) (ts ts' : Timestamps) (todos : List TodoItem)
      (now now' : Int),
      (∀ t ∈ todos, noNl t.text ∧ noNl t.sourceBasename) →
      (formatOutput settings itemGroups itemOrder ts todos now =
        formatOutputWithChecked settings itemGroups itemOrder ts todos [] now) ∧
      (formatOutput settings itemGroups itemOrder ts todos now).1 =
        (formatOutput settings itemGroups itemOrder ts' todos now').1 ∧
      (formatOutput settings itemGroups itemOrder ts todos now).2 = ts ∧
      ∀ l ∈ splitLines (formatOutput settings itemGroups itemOrder ts todos now).1,
        goodLine l ∧ checkedMatch (trimStr l) = none := by
  intro settings itemGroups itemOrder ts ts' todos now now' hnl
  refine ⟨rfl,
    formatOutputWithChecked_empty_fst settings itemGroups itemOrder ts ts'
      todos now now',
    formatOutputWithChecked_empty_snd settings itemGroups itemOrder ts todos now,
    ?_⟩
  have hactive : ∀ t ∈ activeTodosOf todos [], noNl t.text ∧ noNl t.sourceBasename :=
    fun t ht => hnl t (List.mem_of_mem_filter ht)
  by_cases hg : settings.enableTimeGroups = true
  · rw [formatOutput_grouped_lines settings itemGroups itemOrder ts todos now hg]
    have hgood : ∀ g : TimeGroup,
        ∀ l ∈ sectionLines g
          (sortBucket (itemOrder.get g)
            (bucketsOf itemGroups (activeTodosOf todos []) g)),
          goodLine l ∧ noNl l := by
      intro g
      refine sectionLines_good g _ ?_
      intro gi hgi
      obtain ⟨t, ht, rfl⟩ := mem_bucketsOf (mem_sortBucket hgi)
      exact ⟨t, rfl, (hactive t ht).1, (hactive t ht).2⟩
    have hall : ∀ l ∈
        (sectionLines TimeGroup.today
            (sortBucket (itemOrder.get TimeGroup.today)
              (bucketsOf itemGroups (activeTodosOf todos []) TimeGroup.today)) ++
          (sectionLines TimeGroup.tomorrow
            (sortBucket (itemOrder.get TimeGroup.tomorrow)
              (bucketsOf itemGroups (activeTodosOf todos []) TimeGroup.tomorrow)) ++
          (sectionLines TimeGroup.week
            (sortBucket (itemOrder.get TimeGroup.week)
              (bucketsOf itemGroups (activeTodosOf todos []) TimeGroup.week)) ++
          sectionLines TimeGroup.backlog
            (sortBucket (itemOrder.get TimeGroup.backlog)
              (bucketsOf itemGroups (activeTodosOf todos [])
                TimeGroup.backlog))))),
        goodLine l ∧ noNl l := by
      intro l hl
      rcases List.mem_append.mp hl with h | h
      · exact hgood TimeGroup.today l h
      rcases List.mem_append.mp h with h | h
      · exact hgood TimeGroup.tomorrow l h
      rcases List.mem_append.mp h with h | h
      · exact hgood TimeGroup.week l h
      · exact hgood TimeGroup.backlog l h
    rw [splitLines_joinLines (fun l hl => (hall l hl).2)]
    intro l hl
    rcases List.mem_append.mp hl with h | h
    · exact ⟨(hall l h).1, checkedMatch_trim_of_goodLine (hall l h).1⟩
    · simp only [List.mem_singleton] at h
      subst h
      exact ⟨Or.inl rfl, by decide⟩
  · have hflat : settings.enableTimeGroups = false := by
      simpa using hg
    rw [formatOutput_flat_lines settings itemGroups itemOrder ts todos now hflat]
    have hall : ∀ l ∈ (activeTodosOf todos []).map todoLine, goodLine l ∧ noNl l := by
      intro l hl
      obtain ⟨t, ht, rfl⟩ := List.mem_map.mp hl
      refine ⟨Or.inr (Or.inr ?_), noNl_todoLine (hactive t ht).1 (hactive t ht).2⟩
      rw [List.isPrefixOf_iff_prefix]
      refine ⟨t.text ++ " [[".toList ++ t.sourceBasename ++ "]]".toList, ?_⟩
      rw [todoLine]
      simp [List.append_assoc]
    rw [splitLines_joinLines (fun l hl => (hall l hl).2)]
    intro l hl
    rcases List.mem_append.mp hl with h | h
    · exact ⟨(hall l h).1, checkedMatch_trim_of_goodLine (hall l h).1⟩
    · simp only [List.mem_singleton] at h
      subst h
      exact ⟨Or.inl rfl, by decide⟩

/-- Witness for C10: one newline-free todo, flat mode, a non-trivial
timestamp record — the formatted pass leaves the record unchanged. -/
theorem C10_witness :
    (∀ t ∈ [(⟨"A".toList, "n".toList⟩ : TodoItem)],
      noNl t.text ∧ noNl t.sourceBasename) ∧
    (formatOutput exSettingsF [] ⟨[], [], [], []⟩ [("k".toList, 5)]
        [⟨"A".toList, "n".toList⟩] 1).2 = [("k".toList, 5)] :=
  ⟨by decide,
    (C10_theorem exSettingsF [] ⟨[], [], [], []⟩ [("k".toList, 5)] []
        [⟨"A".toList, "n".toList⟩] 1 2 (by decide)).2.2.1⟩

end TodoCollector
